import Mathlib

/-!
Verification of the Unity-Text-Manager extraction/injection core
(`src/unity_injector.py`, `src/unity_scanner.py`) via a shallow embedding.

Conventions of the embedding:
* Python strings are Lean `String`s; character-class predicates
  (`str.isspace`, `str.isalpha`, …) are embedded over Unicode code points,
  restricted to the character ranges the source manipulates (the ASCII
  control/letter/digit ranges plus the standard Unicode whitespace list).
* Python dictionaries are association lists with first-match lookup,
  Python lists are Lean lists, and in-place mutation is modelled by
  returning the updated value alongside the original return value.
* Filesystem state is a partial map from path strings to byte lists; the
  fallible IO steps of the injector (UnityPy load, env.file.save, the
  integrity verifications, the retry loop of `_replace_file_safely`) are
  modelled by boolean outcome parameters, while the rollback control flow
  itself is embedded faithfully.
-/

/-- Whitespace predicate of Python `str.strip()` / `str.isspace()`:
ASCII whitespace (tab, LF, VT, FF, CR, FS, GS, RS, US, space) plus the
standard Unicode whitespace code points. -/
def pyIsSpace (c : Char) : Bool :=
  let n := c.toNat
  (9 ≤ n && n ≤ 13) || (28 ≤ n && n ≤ 32) || n == 133 || n == 160 ||
  n == 5760 || (8192 ≤ n && n ≤ 8202) || n == 8232 || n == 8233 ||
  n == 8239 || n == 8287 || n == 12288

/-- Python `str.strip()`: drop leading and trailing whitespace. -/
def pyStrip (s : String) : String :=
  String.mk (((s.data.dropWhile pyIsSpace).reverse.dropWhile pyIsSpace).reverse)

/-- Characters removed by `_clean_text_data` (unity_injector.py:171-189):
NUL plus the control characters 0x01-0x08, 0x0b, 0x0c, 0x0e-0x1f
(keeping tab 0x09, LF 0x0a and CR 0x0d). -/
def isCleanedControl (c : Char) : Bool :=
  let n := c.toNat
  n == 0 || (1 ≤ n && n ≤ 8) || n == 11 || n == 12 || (14 ≤ n && n ≤ 31)

/-- `_clean_text_data` (unity_injector.py:171-189).  The source applies one
`str.replace(ch, '')` per character of its removal set, which is the same
as filtering that whole set out in one pass. -/
def cleanTextData (text : String) : String :=
  if text = "" then text
  else String.mk (text.data.filter (fun c => !isCleanedControl c))

/-- `_contains_dangerous_chars` (unity_injector.py:260-270): only the NUL
character is considered dangerous. -/
def containsDangerousChars (text : String) : Bool :=
  text.data.contains '\x00'

/-- One inventory entry, with the fields `_filter_valid_translations`
reads (`text_entry.get(...)`).  `path_id` is `none` when the key is
missing; Python treats both a missing key and a zero id as falsy. -/
structure TextEntry where
  asset_name : String
  is_translated : Bool
  original_text : String
  translated_text : String
  source_file : String
  path_id : Option Int
  deriving Repr, DecidableEq

/-- Python truthiness of the `path_id` field (`if not path_id`). -/
def pathIdTruthy (p : Option Int) : Bool :=
  match p with
  | none => false
  | some n => n != 0

/-- The in-place cleaning `_filter_valid_translations` applies to every
entry before validating it (unity_injector.py:203-208). -/
def cleanEntry (e : TextEntry) : TextEntry :=
  { e with
    original_text := pyStrip (cleanTextData e.original_text)
    translated_text := pyStrip (cleanTextData e.translated_text) }

/-- `_filter_valid_translations` (unity_injector.py:191-258), with the
`Path(source_file).exists()` probe abstracted as the predicate `fs`.
Returns the mutated inventory (every entry cleaned in place) together
with the surviving list `valid_translations`. -/
def filter_valid_translations (fs : String → Bool) :
    List TextEntry → List TextEntry × List TextEntry
  | [] => ([], [])
  | e :: rest =>
    let e' := cleanEntry e
    let t := e'.translated_text
    let o := e'.original_text
    let r := filter_valid_translations fs rest
    if !e.is_translated then (e' :: r.1, r.2)
    else if t = "" then (e' :: r.1, r.2)
    else if t = o then (e' :: r.1, r.2)
    else if containsDangerousChars t then (e' :: r.1, r.2)
    else if e.source_file = "" || !fs e.source_file then (e' :: r.1, r.2)
    else if !pathIdTruthy e.path_id then (e' :: r.1, r.2)
    else (e' :: r.1, e' :: r.2)

/-- The per-entry survival test of `_filter_valid_translations`, phrased
on an already-cleaned entry: this is the conjunction of the checks the
source performs after cleaning. -/
def surviveCheck (fs : String → Bool) (e : TextEntry) : Bool :=
  e.is_translated && e.translated_text != "" &&
  e.translated_text != e.original_text &&
  !containsDangerousChars e.translated_text &&
  e.source_file != "" && fs e.source_file && pathIdTruthy e.path_id

/-- Filesystem state: a partial map from path strings to byte contents.
`none` means the file does not exist. -/
def FS : Type := String → Option (List Nat)

/-- Writing a file (create or overwrite). -/
def fsSet (fs : FS) (p : String) (b : List Nat) : FS :=
  fun q => if q = p then some b else fs q

/-- Deleting a file (`Path.unlink`). -/
def fsErase (fs : FS) (p : String) : FS :=
  fun q => if q = p then none else fs q

/-- UTF-8 bytes of a string, as written by `open(path, 'w',
encoding='utf-8')` or `str.encode('utf-8')`. -/
def utf8Bytes (s : String) : List Nat :=
  s.toUTF8.toList.map (fun b => b.toNat)

/-- `_inject_text_file` (unity_injector.py:725-740): a plain-text file is
wholly overwritten with the single record's `translated_text`; any other
number of records fails without touching the file. -/
def inject_text_file (fs : FS) (path : String) (entries : List TextEntry) :
    Bool × FS :=
  match entries with
  | [e] => (true, fsSet fs path (utf8Bytes e.translated_text))
  | _ => (false, fs)

/-- `_inject_unity_file_with_rollback` (unity_injector.py:316-434).

The fallible environment steps are boolean outcome parameters:
`loadOk` (UnityPy.load of the temporary copy), `modified`/`modCount`
(outcome of the per-object modification loop), `saveOk` (writing
`env.file.save()` to the temporary file), `verifyTemp` and `verifyFinal`
(the two `_verify_unity_file_complete_integrity` calls), and `replaceOk`
(the bounded retry loop of `_replace_file_safely`, unity_injector.py:532-558,
whose observable outcome is success or failure of the move).  `newBytes`
is the serialized modified container.  The temporary working copy lives
outside the game directory and is always deleted, so it is not part of the
modelled filesystem; `bpath` is the `.backup_temp` safety copy created
just before replacement and removed on every exit path. -/
def injectUnityFileWithRollback (fs : FS) (path bpath : String)
    (loadOk modified : Bool) (modCount : Nat) (newBytes : List Nat)
    (saveOk verifyTemp replaceOk verifyFinal : Bool) : Bool × FS :=
  match fs path with
  | none => (false, fs)
  | some orig =>
    if !loadOk then (false, fs)
    else if modified && decide (0 < modCount) then
      if !saveOk then (false, fs)
      else if !verifyTemp then (false, fs)
      else
        let fs1 := fsSet fs bpath orig
        if replaceOk then
          let fs2 := fsSet fs1 path newBytes
          if verifyFinal then (true, fsErase fs2 bpath)
          else (false, fsErase (fsSet fs2 path orig) bpath)
        else (false, fsErase (fsSet fs1 path orig) bpath)
    else (true, fs)

/-- The per-file accounting of the `inject_translations` driver loop
(unity_injector.py:154-159): a successful file adds its entry count to
the success counter, a failed file adds it to the error counter. -/
def injectOneFileDriver (result : Bool) (numEntries success error : Nat) :
    Nat × Nat :=
  if result then (success + numEntries, error)
  else (success, error + numEntries)

/-- A value of the decoded MonoBehaviour typetree: Python strings, ints,
booleans, byte strings, lists and (string-keyed) dicts.  Dicts are
association lists with first-match lookup.  Float-valued leaves are
outside the embedding (no float arithmetic or conversion is exercised by
the verified claims). -/
inductive PyVal where
  | str (s : String)
  | int (n : Int)
  | bool (b : Bool)
  | bytes (bs : List Nat)
  | list (xs : List PyVal)
  | dict (fields : List (String × PyVal))
  deriving Repr

/-- First-match association lookup, the model of `current[key]` /
`key in current` on a Python dict. -/
def lookupKey (m : List (String × PyVal)) (k : String) : Option PyVal :=
  match m with
  | [] => none
  | (k2, v2) :: rest => if k2 = k then some v2 else lookupKey rest k

/-- Replace the (first-match) binding of `k`, the model of
`current[key] = value` on a dict that already contains `k`. -/
def updateLookup (m : List (String × PyVal)) (k : String) (v : PyVal) :
    List (String × PyVal) :=
  match m with
  | [] => []
  | (k2, v2) :: rest =>
    if k2 = k then (k2, v) :: rest else (k2, v2) :: updateLookup rest k v

/-- Python truthiness (`if not x`) on an embedded value. -/
def pyFalsy (v : PyVal) : Bool :=
  match v with
  | .str s => s = ""
  | .int n => n == 0
  | .bool b => !b
  | .bytes bs => bs.isEmpty
  | .list xs => xs.isEmpty
  | .dict m => m.isEmpty

/-- Tail of a Python integer literal after its first digit: digits with
single underscores allowed between digits. -/
def pyDigitsTail (cs : List Char) : Bool :=
  match cs with
  | [] => true
  | '_' :: [] => false
  | '_' :: c :: rest => c.isDigit && pyDigitsTail rest
  | c :: rest => c.isDigit && pyDigitsTail rest

/-- A nonempty run of decimal digits with single embedded underscores,
the digit grammar accepted by Python `int(str)`. -/
def pyDigits (cs : List Char) : Bool :=
  match cs with
  | [] => false
  | c :: rest => c.isDigit && pyDigitsTail rest

/-- Numeric value of a digit run, skipping underscores. -/
def digitsVal (cs : List Char) : Nat :=
  cs.foldl (fun acc c => if c = '_' then acc else acc * 10 + (c.toNat - 48)) 0

/-- Python `int(str)`: strip surrounding whitespace, accept an optional
sign followed by digits (underscore separators allowed); anything else
raises `ValueError`, modelled as `none`.  Restricted to ASCII digits. -/
def pyIntParse (s : String) : Option Int :=
  let t := ((s.data.dropWhile pyIsSpace).reverse.dropWhile pyIsSpace).reverse
  match t with
  | '+' :: r => if pyDigits r then some (Int.ofNat (digitsVal r)) else none
  | '-' :: r => if pyDigits r then some (-(Int.ofNat (digitsVal r))) else none
  | r => if pyDigits r then some (Int.ofNat (digitsVal r)) else none

/-- Python list indexing as used after the source's own `index >= len`
guard: a too-large index was already rejected by the caller, a negative
index wraps from the end, and a too-small negative index raises
`IndexError` (modelled as `none`, which the source catches). -/
def pyIndex (xs : List PyVal) (i : Int) : Option PyVal :=
  if (xs.length : Int) ≤ i then none
  else if 0 ≤ i then xs[i.toNat]?
  else if -(xs.length : Int) ≤ i then xs[((xs.length : Int) + i).toNat]?
  else none

/-- Python list element assignment `xs[i] = v` with the same index
semantics as `pyIndex`. -/
def pySetIndex (xs : List PyVal) (i : Int) (v : PyVal) :
    Option (List PyVal) :=
  if (xs.length : Int) ≤ i then none
  else if 0 ≤ i then some (xs.set i.toNat v)
  else if -(xs.length : Int) ≤ i then
    some (xs.set ((xs.length : Int) + i).toNat v)
  else none

/-- Does a path component use bracket indexing
(`'[' in key and ']' in key`)? -/
def hasBracket (key : String) : Bool :=
  key.data.contains '[' && key.data.contains ']'

/-- Decompose a bracketed component the way the source does:
`field_name = key.split('[')[0]` and
`index = int(key.split('[')[1].split(']')[0])`; a failing `int()` is the
`none` index. -/
def bracketParts (key : String) : String × Option Int :=
  let fname := String.mk (key.data.takeWhile (fun c => c ≠ '['))
  let afterBracket := (key.data.dropWhile (fun c => c ≠ '[')).drop 1
  let seg := (afterBracket.takeWhile (fun c => c ≠ '[')).takeWhile
    (fun c => c ≠ ']')
  (fname, pyIntParse (String.mk seg))

/-- One navigation step of `_get_nested_value` (unity_injector.py:697-723)
and of the non-final loop of `_set_nested_value`.  On anything but a
dict every outcome of the source is a caught exception or a failed
membership test, so the step yields `none`. -/
def stepKey (cur : PyVal) (key : String) : Option PyVal :=
  match cur with
  | .dict m =>
    if hasBracket key then
      match (bracketParts key).2 with
      | none => none
      | some idx =>
        match lookupKey m (bracketParts key).1 with
        | some (.list xs) => pyIndex xs idx
        | _ => none
    else lookupKey m key
  | _ => none

/-- The final-component write of `_set_nested_value`
(unity_injector.py:808-827), returning the updated value; `none` is a
`return False` of the source.  Performing the write functionally, this is
also the write-back step for the non-final components. -/
def setFinal (cur : PyVal) (key : String) (v : PyVal) : Option PyVal :=
  match cur with
  | .dict m =>
    if hasBracket key then
      match (bracketParts key).2 with
      | none => none
      | some idx =>
        match lookupKey m (bracketParts key).1 with
        | some (.list xs) =>
          match pySetIndex xs idx v with
          | some xs2 =>
            some (.dict (updateLookup m (bracketParts key).1 (.list xs2)))
          | none => none
        | _ => none
    else
      match lookupKey m key with
      | some _ => some (.dict (updateLookup m key v))
      | none => none
  | _ => none

/-- The navigation loop of `_get_nested_value` over the split path. -/
def getSegs (cur : PyVal) : List String → Option PyVal
  | [] => some cur
  | k :: ks =>
    match stepKey cur k with
    | none => none
    | some nxt => getSegs nxt ks

/-- The navigation-and-write of `_set_nested_value` over the split path:
walk the non-final components with `stepKey`, write the final component
with `setFinal`, and (functionally) write the updated child back into its
parent, which in the source is the aliasing of `current`. -/
def setSegs (cur : PyVal) (v : PyVal) : List String → Option PyVal
  | [] => none
  | [k] => setFinal cur k v
  | k :: k2 :: ks =>
    match stepKey cur k with
    | none => none
    | some nxt =>
      match setSegs nxt v (k2 :: ks) with
      | none => none
      | some nxt2 => setFinal cur k nxt2

/-- Python `str.split(sep)` for a one-character separator, accumulator
form. -/
def splitDotAux (acc : List Char) : List Char → List String
  | [] => [String.mk acc.reverse]
  | c :: cs =>
    if c = '.' then String.mk acc.reverse :: splitDotAux [] cs
    else splitDotAux (c :: acc) cs

/-- `path.split('.')` — always a nonempty list, like Python's split. -/
def pySplitDot (s : String) : List String :=
  splitDotAux [] s.data

/-- `_get_nested_value` (unity_injector.py:697-723). -/
def get_nested_value (d : PyVal) (path : String) : Option PyVal :=
  getSegs d (pySplitDot path)

/-- `_set_nested_value` (unity_injector.py:776-833): returns the source's
boolean together with the (functionally) updated data. -/
def set_nested_value (d : PyVal) (path : String) (v : PyVal) :
    Bool × PyVal :=
  match setSegs d v (pySplitDot path) with
  | some d2 => (true, d2)
  | none => (false, d)

/-- Runtime type tags used by `_convert_to_type`'s dispatch on
`type(original_value)`. -/
inductive PyType where
  | strT | bytesT | intT | boolT | listT | dictT
  deriving Repr, DecidableEq

/-- Python `type(v)` on an embedded value. -/
def typeOf (v : PyVal) : PyType :=
  match v with
  | .str _ => .strT
  | .bytes _ => .bytesT
  | .int _ => .intT
  | .bool _ => .boolT
  | .list _ => .listT
  | .dict _ => .dictT

/-- ASCII lowering, the effect of Python `str.lower()` on the ASCII
strings compared by `_convert_to_type`'s bool branch. -/
def pyLowerAscii (s : String) : String :=
  String.mk (s.data.map Char.toLower)

/-- `_convert_to_type` (unity_injector.py:676-695).  An `int()` or
`float()` that raises is swallowed and replaced by the zero default; the
bool branch tests membership of the lowered string in
`('true', '1', 'yes', 'on')`; every other target type falls back to
`str(value)`.  (Float-typed leaves are outside the embedding.) -/
def convert_to_type (value : String) (t : PyType) : PyVal :=
  match t with
  | .strT => .str value
  | .bytesT => .bytes (utf8Bytes value)
  | .intT =>
    match pyIntParse value with
    | some n => .int n
    | none => .int 0
  | .boolT =>
    .bool (["true", "1", "yes", "on"].contains (pyLowerAscii value))
  | _ => .str value

/-- `_modify_monobehaviour_safe` (unity_injector.py:631-674).  `monoData`
is the result of `_read_mono_data` (`none` when unreadable); `saveOk` is
the outcome of `data.save()`.  Returns the source's boolean together with
the (functionally) updated typetree data. -/
def modify_monobehaviour_safe (monoData : Option PyVal)
    (fieldPath translated : String) (saveOk : Bool) :
    Bool × Option PyVal :=
  if fieldPath = "" then (false, monoData)
  else
    match monoData with
    | none => (false, none)
    | some md =>
      if pyFalsy md then (false, some md)
      else
        let originalValue := get_nested_value md fieldPath
        let originalType :=
          match originalValue with
          | some v => typeOf v
          | none => PyType.strT
        let converted := convert_to_type translated originalType
        match set_nested_value md fieldPath converted with
        | (true, md2) =>
          if saveOk then (true, some md2) else (false, some md2)
        | (false, _) => (false, some md)

/-- A node of a MonoBehaviour reflection structure, given by reference:
children of mappings and sequences are node ids into a heap, so cyclic
and self-referential structures are representable. -/
inductive MonoNode where
  | str (s : String)
  | dict (fields : List (String × Nat))
  | list (items : List Nat)
  | other
  deriving Repr

/-- Fuel-indexed call trace of `search_mono_data`
(unity_scanner.py:829-869).  Each traced pair is (node reference, depth
argument) of one invocation.  A mapping recurses into its dict- or
list-valued fields and a sequence into its first 100 (`data[:100]`)
dict- or str-valued items, both only while `depth < 4`; the source's
`depth > 6` guard is also kept.  The fuel argument only drives the
structural recursion; `searchCalls` instantiates it as `5 - depth`, which
the guards keep invariant, so the traced behaviour is that of the
source. -/
def searchCallsAux (heap : Nat → MonoNode) :
    Nat → Nat → Nat → List (Nat × Nat)
  | 0, ref, depth => [(ref, depth)]
  | fuel + 1, ref, depth =>
    (ref, depth) ::
      (if depth > 6 then []
       else
         match heap ref with
         | .dict fields =>
           if depth < 4 then
             fields.flatMap (fun kv =>
               match heap kv.2 with
               | .dict _ => searchCallsAux heap fuel kv.2 (depth + 1)
               | .list _ => searchCallsAux heap fuel kv.2 (depth + 1)
               | _ => [])
           else []
         | .list items =>
           if depth < 4 then
             (items.take 100).flatMap (fun r =>
               match heap r with
               | .dict _ => searchCallsAux heap fuel r (depth + 1)
               | .str _ => searchCallsAux heap fuel r (depth + 1)
               | _ => [])
           else []
         | _ => [])

/-- The recursive invocations (node reference, depth) performed by
`search_mono_data` started on node `ref` at depth `depth`. -/
def searchCalls (heap : Nat → MonoNode) (ref depth : Nat) :
    List (Nat × Nat) :=
  searchCallsAux heap (5 - depth) ref depth

/-- `extract_all_strings_from_binary` (unity_scanner.py:512-538): the
results of the four extraction strategies (UTF-8 runs, UTF-16LE runs,
length-prefixed records, JSON fragments — here the four list arguments,
in the source's concatenation order) are concatenated, deduplicated
(`list(set(strings))`) and the strings of length > 3 are kept, sorted by
length descending (Python's stable `sorted(key=len, reverse=True)`). -/
def extract_all_strings_from_binary
    (utf8Strings utf16Strings lengthPrefixed jsonStrings : List String) :
    List String :=
  let strings :=
    ((utf8Strings ++ utf16Strings) ++ lengthPrefixed) ++ jsonStrings
  let uniqueStrings := strings.dedup
  (uniqueStrings.filter (fun s => s.length > 3)).mergeSort
    (fun a b => b.length ≤ a.length)

/-- Strip one trailing newline: Python's re `$` (without MULTILINE)
matches at the end of the string or just before a final newline, so a
fully anchored pattern matches `s` exactly when its core matches `s`
minus an optional final newline. -/
def dropFinalNewline (s : String) : List Char :=
  let cs := s.data
  if cs.getLast? = some '\n' then cs.dropLast else cs

/-- Pattern `^[0-9a-fA-F]{8,}$` of `is_valid_text_candidate`: a hex blob
of at least 8 hex digits spanning the whole string. -/
def matchHexBlob (s : String) : Bool :=
  let core := dropFinalNewline s
  decide (8 ≤ core.length) && core.all (fun c => c.isDigit ||
    ('a' ≤ c && c ≤ 'f') || ('A' ≤ c && c ≤ 'F'))

/-- Pattern `^\d+\.\d+\.\d+` (a version-number prefix), unanchored at the
right.  Greedy `\d+` against the disjoint `.` is deterministic: a digit
run, a dot, a digit run, a dot, a digit. -/
def matchVersionPat (s : String) : Bool :=
  let afterFirst := s.data.dropWhile Char.isDigit
  let rest1 :=
    match afterFirst with
    | '.' :: r => some r
    | _ => none
  match rest1 with
  | none => false
  | some r1 =>
    if (s.data.takeWhile Char.isDigit).isEmpty then false
    else
      let afterSecond := r1.dropWhile Char.isDigit
      if (r1.takeWhile Char.isDigit).isEmpty then false
      else
        match afterSecond with
        | '.' :: c :: _ => c.isDigit
        | _ => false

/-- Pattern `^[A-Z_]{6,}$` with `re.IGNORECASE` (so any-case letters and
underscores), at least 6 of them spanning the whole string. -/
def matchAllCapsId (s : String) : Bool :=
  let core := dropFinalNewline s
  decide (6 ≤ core.length) && core.all (fun c => c.isAlpha || c == '_')

/-- Pattern `\.dll$|\.exe$|\.so$` with `re.IGNORECASE` under `re.match`,
which anchors at the start: the whole string, case-insensitively, must be
exactly one of the three extensions. -/
def matchExtPat (s : String) : Bool :=
  let core := pyLowerAscii (String.mk (dropFinalNewline s))
  core == ".dll" || core == ".exe" || core == ".so"

/-- Pattern `^m_[A-Z]` with `re.IGNORECASE`. -/
def matchMemberPat (s : String) : Bool :=
  match s.data with
  | c1 :: c2 :: c3 :: _ => (c1 == 'm' || c1 == 'M') && c2 == '_' && c3.isAlpha
  | _ => false

/-- Pattern `^UnityEngine\.` with `re.IGNORECASE`. -/
def matchUnityEnginePat (s : String) : Bool :=
  pyLowerAscii (String.mk (s.data.take 12)) == "unityengine."

/-- Pattern `^System\.` with `re.IGNORECASE`. -/
def matchSystemPat (s : String) : Bool :=
  pyLowerAscii (String.mk (s.data.take 7)) == "system."

/-- Pattern `^\s*$`: the string is all whitespace (`\s` absorbs any final
newline as well). -/
def matchBlankPat (s : String) : Bool :=
  s.data.all pyIsSpace

/-- Character class `[<>/_\-=+*#@$%^&(){}[\]\\|;:,.\d\s]` of the
punctuation-and-digits pattern. -/
def isPunctClassChar (c : Char) : Bool :=
  "<>/_-=+*#@$%^&()\x7b\x7d[]\\|;:,.".data.contains c ||
  c.isDigit || pyIsSpace c

/-- Pattern `^[<>/_\-=+*#@$%^&(){}[\]\\|;:,.\d\s]+$`: a nonempty string of
punctuation, digits and whitespace (`\s` covers a final newline). -/
def matchPunctPat (s : String) : Bool :=
  !s.data.isEmpty && s.data.all isPunctClassChar

/-- Pattern `^(true|false|null)$` with `re.IGNORECASE`. -/
def matchLiteralPat (s : String) : Bool :=
  let core := pyLowerAscii (String.mk (dropFinalNewline s))
  core == "true" || core == "false" || core == "null"

/-- Number of alphabetic characters (`c.isalpha()`, ASCII range). -/
def letterCount (s : String) : Nat :=
  (s.data.filter Char.isAlpha).length

/-- `is_valid_text_candidate` (unity_scanner.py:590-616).  The letter
density test `letter_count < len(text) * 0.3` is embedded as the exact
rational comparison `10 * letter_count < 3 * len`; the float product
`len * 0.3` rounds to exactly `3 * len / 10` whenever that is an integer
and otherwise lies strictly between the neighbouring integers, so the
comparison against the integer `letter_count` is unchanged. -/
def is_valid_text_candidate (s : String) : Bool :=
  if s.length < 4 then false
  else if matchHexBlob s || matchVersionPat s || matchAllCapsId s ||
      matchExtPat s || matchMemberPat s || matchUnityEnginePat s ||
      matchSystemPat s || matchBlankPat s || matchPunctPat s ||
      matchLiteralPat s then false
  else if 10 * letterCount s < 3 * s.length then false
  else true

/-- C1: injection is atomic at file granularity — after
`_inject_unity_file_with_rollback` the container file either holds the new
serialized bytes, which passed both integrity verifications, or exactly
its pre-injection bytes; any failed verification leaves the bytes
unchanged, and a failed file adds the number of its records to the error
counter. -/
theorem c1_injection_atomicity (fs : FS) (path bpath : String)
    (loadOk modified : Bool) (modCount : Nat) (newBytes : List Nat)
    (saveOk verifyTemp replaceOk verifyFinal : Bool)
    (numEntries success error : Nat) (hbp : bpath ≠ path) :
    ∀ r, r = injectUnityFileWithRollback fs path bpath loadOk modified
        modCount newBytes saveOk verifyTemp replaceOk verifyFinal →
      (r.2 path = fs path ∨
        (r.1 = true ∧ verifyTemp = true ∧ verifyFinal = true ∧
          r.2 path = some newBytes)) ∧
      ((verifyTemp = false ∨ verifyFinal = false) → r.2 path = fs path) ∧
      (r.1 = false →
        injectOneFileDriver r.1 numEntries success error
          = (success, error + numEntries)) := by
  intro r hr
  subst hr
  unfold injectUnityFileWithRollback injectOneFileDriver
  have hpb : path ≠ bpath := fun h => hbp h.symm
  rcases hfp : fs path with _ | orig
  · simp [hfp]
  · cases loadOk <;> cases modified <;> cases saveOk <;>
      cases verifyTemp <;> cases replaceOk <;> cases verifyFinal <;>
      by_cases hm : 0 < modCount <;>
      simp [fsSet, fsErase, hm, hfp, hpb]

/-- Witness for C1: a concrete failed final verification leaves the
container file bytes unchanged. -/
theorem c1_injection_atomicity_witness :
    (injectUnityFileWithRollback
        (fun p => if p = "a.assets" then some [1, 2] else none)
        "a.assets" "a.backup_temp" true true 1 [9] true true true
        false).2 "a.assets" = some [1, 2] := by
  have h := (c1_injection_atomicity
      (fun p => if p = "a.assets" then some [1, 2] else none)
      "a.assets" "a.backup_temp" true true 1 [9] true true true false
      3 0 0 (by decide) _ rfl).2.1 (Or.inr rfl)
  simpa using h

/-- C4: for a plain-text file, a single surviving record overwrites the
whole file with its `translated_text` (UTF-8 encoded), while more than
one record fails the file and leaves the filesystem unchanged. -/
theorem c4_text_file_injection (fs : FS) (path : String)
    (entries : List TextEntry) :
    (∀ e, entries = [e] →
      inject_text_file fs path entries
        = (true, fsSet fs path (utf8Bytes e.translated_text))) ∧
    (1 < entries.length →
      inject_text_file fs path entries = (false, fs)) := by
  constructor
  · rintro e rfl
    rfl
  · intro h
    rcases entries with _ | ⟨a, _ | ⟨b, l⟩⟩
    · rfl
    · simp at h
    · rfl

/-- Witness for C4 at a concrete entry and filesystem. -/
theorem c4_text_file_injection_witness :
    inject_text_file (fun _ => none) "t.txt"
        [{ asset_name := "n", is_translated := true, original_text := "Hello",
           translated_text := "Bonjour", source_file := "t.txt",
           path_id := some 1 }]
      = (true, fsSet (fun _ => none) "t.txt" (utf8Bytes "Bonjour")) ∧
    inject_text_file (fun _ => none) "t.txt"
        [{ asset_name := "n", is_translated := true, original_text := "Hello",
           translated_text := "Bonjour", source_file := "t.txt",
           path_id := some 1 },
         { asset_name := "n2", is_translated := true, original_text := "Hi",
           translated_text := "Salut", source_file := "t.txt",
           path_id := some 2 }]
      = (false, (fun _ => none)) :=
  ⟨(c4_text_file_injection (fun _ => none) "t.txt" _).1 _ rfl,
   (c4_text_file_injection (fun _ => none) "t.txt" _).2 (by decide)⟩

/-- C7: the binary string sweep's combination step — for any outputs of
the four extraction strategies, the returned collection is duplicate-free
and contains exactly the strategy outputs of length at least 4. -/
theorem c7_sweep_union_dedup_minlen
    (utf8Strings utf16Strings lengthPrefixed jsonStrings : List String) :
    (extract_all_strings_from_binary utf8Strings utf16Strings
        lengthPrefixed jsonStrings).Nodup ∧
    (∀ s, s ∈ extract_all_strings_from_binary utf8Strings utf16Strings
        lengthPrefixed jsonStrings ↔
      (s ∈ ((utf8Strings ++ utf16Strings) ++ lengthPrefixed) ++ jsonStrings
        ∧ 4 ≤ s.length)) := by
  unfold extract_all_strings_from_binary
  constructor
  · exact (List.mergeSort_perm _ _).symm.nodup
      ((List.nodup_dedup _).filter _)
  · intro s
    rw [List.mem_mergeSort, List.mem_filter, List.mem_dedup]
    constructor
    · rintro ⟨h1, h2⟩
      refine ⟨h1, ?_⟩
      simpa using h2
    · rintro ⟨h1, h2⟩
      refine ⟨h1, ?_⟩
      simpa using h2

/-- Witness for C7: a concrete string in a concrete sweep result. -/
theorem c7_sweep_union_dedup_minlen_witness :
    "hello" ∈ extract_all_strings_from_binary ["hello", "hello"] [] ["abc"] [] :=
  ((c7_sweep_union_dedup_minlen ["hello", "hello"] [] ["abc"] []).2
    "hello").mpr (by decide)

/-- Counterexample for C8: `is_valid_text_candidate` accepts a string
whose letter density is exactly 30%, so density strictly greater than 30%
is not required for acceptance. -/
theorem c8_counterexample :
    is_valid_text_candidate "xyz1234567" = true ∧
    10 * letterCount "xyz1234567" = 3 * ("xyz1234567".length) := by
  decide

/-- C8 (amended): `is_valid_text_candidate` accepts a string only if its
letter density is at least 30% (strings with density strictly below 30%
are rejected), and only if it is not hex-blob-looking,
version-number-looking, all-caps-identifier-looking, or
path-extension-looking. -/
theorem c8_letter_density_bound (s : String)
    (h : is_valid_text_candidate s = true) :
    3 * s.length ≤ 10 * letterCount s ∧
    matchHexBlob s = false ∧ matchVersionPat s = false ∧
    matchAllCapsId s = false ∧ matchExtPat s = false := by
  unfold is_valid_text_candidate at h
  split_ifs at h with h1 h2 h3
  have h2' := h2
  simp only [Bool.or_eq_true, not_or] at h2'
  refine ⟨by omega, ?_, ?_, ?_, ?_⟩ <;>
    simp only [Bool.not_eq_true] at h2' <;> tauto

/-- Witness for C8 at a concrete accepted string. -/
theorem c8_letter_density_bound_witness :
    3 * ("Hello there" : String).length ≤ 10 * letterCount "Hello there" :=
  (c8_letter_density_bound "Hello there" (by decide)).1

/-- One step of the filter: the mutated-inventory component always gains
the cleaned entry at its head. -/
theorem filter_valid_translations_fst_cons (fs : String → Bool)
    (e : TextEntry) (rest : List TextEntry) :
    (filter_valid_translations fs (e :: rest)).1
      = cleanEntry e :: (filter_valid_translations fs rest).1 := by
  simp only [filter_valid_translations]
  split_ifs <;> rfl

/-- One step of the filter: the surviving component gains the cleaned
entry exactly when it passes the survival test. -/
theorem filter_valid_translations_snd_cons (fs : String → Bool)
    (e : TextEntry) (rest : List TextEntry) :
    (filter_valid_translations fs (e :: rest)).2
      = if surviveCheck fs (cleanEntry e)
          then cleanEntry e :: (filter_valid_translations fs rest).2
          else (filter_valid_translations fs rest).2 := by
  have hclean1 : (cleanEntry e).is_translated = e.is_translated := rfl
  have hclean2 : (cleanEntry e).source_file = e.source_file := rfl
  have hclean3 : (cleanEntry e).path_id = e.path_id := rfl
  simp only [filter_valid_translations, surviveCheck, hclean1, hclean2,
    hclean3]
  cases h1 : e.is_translated <;>
    by_cases h2 : (cleanEntry e).translated_text = "" <;>
    by_cases h3 : (cleanEntry e).translated_text
      = (cleanEntry e).original_text <;>
    cases h4 : containsDangerousChars (cleanEntry e).translated_text <;>
    by_cases h5 : e.source_file = "" <;>
    cases h6 : fs e.source_file <;>
    cases h7 : pathIdTruthy e.path_id <;>
    simp [h2, h3, h4, h5, h6, h7]

/-- The surviving set is the filter of the survival test over the cleaned
inventory. -/
theorem filter_valid_translations_snd_eq (fs : String → Bool) :
    ∀ xs : List TextEntry,
      (filter_valid_translations fs xs).2
        = (xs.map cleanEntry).filter (surviveCheck fs) := by
  intro xs
  induction xs with
  | nil => rfl
  | cons e rest ih =>
    rw [filter_valid_translations_snd_cons, List.map_cons, List.filter_cons,
      ih]

/-- Characters of a stripped string come from the unstripped string. -/
theorem mem_pyStrip (c : Char) (s : String) (h : c ∈ (pyStrip s).data) :
    c ∈ s.data := by
  unfold pyStrip at h
  simp only [String.data] at h
  have h1 := (List.dropWhile_suffix (l :=
    (s.data.dropWhile pyIsSpace).reverse) pyIsSpace).subset
  have h2 := (List.dropWhile_suffix (l := s.data) pyIsSpace).subset
  rw [List.mem_reverse] at h
  have h3 := h1 h
  rw [List.mem_reverse] at h3
  exact h2 h3

/-- No character of a cleaned string is in the removed control set. -/
theorem cleanTextData_no_control (t : String) (c : Char)
    (h : c ∈ (cleanTextData t).data) : isCleanedControl c = false := by
  unfold cleanTextData at h
  split_ifs at h with h1
  · subst h1
    simp at h
  · simp only [String.data] at h
    rcases List.mem_filter.mp h with ⟨_, h3⟩
    simpa using h3

/-- C10: the record filter mutates its input inventory in place — every
entry, surviving or rejected, comes back with `original_text` and
`translated_text` cleaned of NUL and of control characters other than
tab, newline and carriage return, and trimmed of surrounding whitespace;
consequently no entry of the mutated inventory contains such a control
character. -/
theorem c10_filter_mutates_inventory (fs : String → Bool)
    (xs : List TextEntry) :
    (filter_valid_translations fs xs).1 = xs.map cleanEntry ∧
    ∀ e ∈ (filter_valid_translations fs xs).1,
      (∀ c ∈ e.original_text.data, isCleanedControl c = false) ∧
      (∀ c ∈ e.translated_text.data, isCleanedControl c = false) := by
  have hfst : ∀ ys : List TextEntry,
      (filter_valid_translations fs ys).1 = ys.map cleanEntry := by
    intro ys
    induction ys with
    | nil => rfl
    | cons e rest ih =>
      rw [filter_valid_translations_fst_cons, ih, List.map_cons]
  refine ⟨hfst xs, ?_⟩
  intro e he
  rw [hfst xs] at he
  rcases List.mem_map.mp he with ⟨e0, _, rfl⟩
  constructor
  · intro c hc
    exact cleanTextData_no_control _ _ (mem_pyStrip _ _ hc)
  · intro c hc
    exact cleanTextData_no_control _ _ (mem_pyStrip _ _ hc)

/-- Witness for C10 on a concrete inventory. -/
theorem c10_filter_mutates_inventory_witness :
    (filter_valid_translations (fun _ => false)
        [{ asset_name := "a", is_translated := false,
           original_text := " A\x01B ", translated_text := "C\x00D",
           source_file := "", path_id := none }]).1
      = [{ asset_name := "a", is_translated := false,
           original_text := "AB", translated_text := "CD",
           source_file := "", path_id := none }] ∧
    isCleanedControl '\x01' = true := by
  refine ⟨?_, by decide⟩
  have h := (c10_filter_mutates_inventory (fun _ => false)
    [{ asset_name := "a", is_translated := false,
       original_text := " A\x01B ", translated_text := "C\x00D",
       source_file := "", path_id := none }]).1
  rw [h]
  decide

/-- Counterexample for C2: an entry whose `translated_text` contains a
NUL byte is not excluded — the filter strips the NUL and the record
survives (with cleaned text), so a write derived from it can reach a
file. -/
theorem c2_counterexample :
    ('\x00' ∈ ("Hello\x00World" : String).data) ∧
    (filter_valid_translations (fun _ => true)
        [{ asset_name := "a", is_translated := true, original_text := "Hi",
           translated_text := "Hello\x00World", source_file := "f",
           path_id := some 1 }]).2
      = [{ asset_name := "a", is_translated := true, original_text := "Hi",
           translated_text := "HelloWorld", source_file := "f",
           path_id := some 1 }] := by
  decide

/-- C2 (amended): the filter strips NUL (and other control) bytes from
`translated_text` before validating, so a NUL-bearing record is not
excluded outright but survives in cleaned form; every record in the
surviving set has a NUL-free `translated_text`, hence no NUL byte ever
reaches a file. -/
theorem c2_survivors_nul_free (fs : String → Bool) (xs : List TextEntry) :
    ∀ e ∈ (filter_valid_translations fs xs).2,
      e.translated_text.data.contains '\x00' = false := by
  intro e he
  rw [filter_valid_translations_snd_eq] at he
  have hc := (List.mem_filter.mp he).2
  simp only [surviveCheck, Bool.and_eq_true] at hc
  have h4 := hc.1.1.1.2
  unfold containsDangerousChars at h4
  simpa using h4

/-- Witness for C2 on a concrete surviving record. -/
theorem c2_survivors_nul_free_witness :
    ({ asset_name := "a", is_translated := true, original_text := "Hi",
       translated_text := "HelloWorld", source_file := "f",
       path_id := some 1 } :
        TextEntry).translated_text.data.contains '\x00' = false :=
  c2_survivors_nul_free (fun _ => true)
    [{ asset_name := "a", is_translated := true, original_text := "Hi",
       translated_text := "Hello\x00World", source_file := "f",
       path_id := some 1 }] _ (by decide)

/-- The head surviving `dropWhile` fails the predicate. -/
theorem dropWhile_head_false {α : Type} (p : α → Bool) (l : List α)
    (a : α) (t : List α) (h : l.dropWhile p = a :: t) : p a = false := by
  have h2 := List.head?_dropWhile_not p l
  rw [h] at h2
  simpa using h2

/-- `dropWhile` is idempotent. -/
theorem dropWhile_idem {α : Type} (p : α → Bool) (l : List α) :
    (l.dropWhile p).dropWhile p = l.dropWhile p := by
  rcases h : l.dropWhile p with _ | ⟨a, t⟩
  · simp
  · have ha := dropWhile_head_false p l a t h
    simp [List.dropWhile_cons, ha]

/-- A both-ends-stripped list is unchanged by a further front strip. -/
theorem stripList_dropWhile (p : Char → Bool) (l : List Char) :
    ((((l.dropWhile p).reverse.dropWhile p).reverse).dropWhile p)
      = ((l.dropWhile p).reverse.dropWhile p).reverse := by
  rcases h : ((l.dropWhile p).reverse.dropWhile p).reverse with _ | ⟨a, t⟩
  · simp
  · obtain ⟨u, hu⟩ :=
      List.dropWhile_suffix (l := (l.dropWhile p).reverse) p
    have h1 : (l.dropWhile p).reverse.reverse
        = (u ++ ((l.dropWhile p).reverse.dropWhile p)).reverse := by
      rw [hu]
    rw [List.reverse_reverse, List.reverse_append, h] at h1
    have hpa : p a = false := by
      refine dropWhile_head_false p l a (t ++ u.reverse) ?_
      simpa using h1
    simp [List.dropWhile_cons, hpa]

/-- Python `strip` is idempotent. -/
theorem pyStrip_idem (s : String) : pyStrip (pyStrip s) = pyStrip s := by
  unfold pyStrip
  congr 1
  have hA := stripList_dropWhile pyIsSpace s.data
  rw [hA, List.reverse_reverse, dropWhile_idem]

/-- A string with no removable control characters is unchanged by
`_clean_text_data`. -/
theorem cleanTextData_of_clean (s : String)
    (h : ∀ c ∈ s.data, isCleanedControl c = false) :
    cleanTextData s = s := by
  unfold cleanTextData
  split_ifs with h1
  · rfl
  · cases s with
    | mk data =>
      congr 1
      rw [List.filter_eq_self]
      intro a ha
      simpa using h a ha

/-- Cleaning then stripping is idempotent. -/
theorem cleanStrip_idem (t : String) :
    pyStrip (cleanTextData (pyStrip (cleanTextData t)))
      = pyStrip (cleanTextData t) := by
  rw [cleanTextData_of_clean (pyStrip (cleanTextData t))
    (fun c hc => cleanTextData_no_control _ _ (mem_pyStrip _ _ hc)),
    pyStrip_idem]

/-- The in-place cleaning of the filter is idempotent on entries. -/
theorem cleanEntry_idem (e : TextEntry) :
    cleanEntry (cleanEntry e) = cleanEntry e := by
  cases e
  simp [cleanEntry, cleanStrip_idem]

/-- C5: the record filter is idempotent — running
`_filter_valid_translations` on its own surviving set returns the same
surviving set. -/
theorem c5_filter_idempotent (fs : String → Bool) (xs : List TextEntry) :
    (filter_valid_translations fs
        (filter_valid_translations fs xs).2).2
      = (filter_valid_translations fs xs).2 := by
  simp only [filter_valid_translations_snd_eq]
  have h1 : ((xs.map cleanEntry).filter (surviveCheck fs)).map cleanEntry
      = (xs.map cleanEntry).filter (surviveCheck fs) := by
    have h2 : ∀ a ∈ (xs.map cleanEntry).filter (surviveCheck fs),
        cleanEntry a = id a := by
      intro a ha
      rcases List.mem_map.mp (List.mem_of_mem_filter ha) with ⟨b, _, rfl⟩
      exact cleanEntry_idem b
    rw [List.map_congr_left h2, List.map_id]
  rw [h1, List.filter_filter]
  exact List.filter_congr (fun x _ => Bool.and_self _)

/-- Updating a present key keeps it present with the new value. -/
theorem lookupKey_updateLookup (m : List (String × PyVal)) (k : String)
    (v w : PyVal) (h : lookupKey m k = some w) :
    lookupKey (updateLookup m k v) k = some v := by
  induction m with
  | nil => simp [lookupKey] at h
  | cons kv rest ih =>
    rcases kv with ⟨k2, v2⟩
    by_cases hk : k2 = k
    · subst hk
      simp [lookupKey, updateLookup]
    · simp only [lookupKey, updateLookup, if_neg hk] at h ⊢
      exact ih h

/-- Assignment and read succeed on the same indices. -/
theorem pySetIndex_isSome (xs : List PyVal) (i : Int) (v : PyVal) :
    (pySetIndex xs i v).isSome = (pyIndex xs i).isSome := by
  unfold pySetIndex pyIndex
  split_ifs with h1 h2 h3
  · rfl
  · have hlt : i.toNat < xs.length := by omega
    simp [List.getElem?_eq_getElem hlt]
  · have hlt : ((xs.length : Int) + i).toNat < xs.length := by omega
    simp [List.getElem?_eq_getElem hlt]
  · rfl

/-- Reading back the assigned index yields the assigned value. -/
theorem pyIndex_pySetIndex (xs : List PyVal) (i : Int) (v : PyVal)
    (xs2 : List PyVal) (h : pySetIndex xs i v = some xs2) :
    pyIndex xs2 i = some v := by
  unfold pySetIndex at h
  unfold pyIndex
  split_ifs at h with h1 h2 h3
  · obtain rfl : xs.set i.toNat v = xs2 := Option.some_injective _ h
    have hlt : i.toNat < xs.length := by omega
    rw [List.length_set]
    rw [if_neg h1, if_pos h2]
    exact List.getElem?_set_self (by omega)
  · obtain rfl : xs.set ((xs.length : Int) + i).toNat v = xs2 :=
      Option.some_injective _ h
    have hlt : ((xs.length : Int) + i).toNat < xs.length := by omega
    rw [List.length_set]
    rw [if_neg h1, if_neg h2, if_pos h3]
    exact List.getElem?_set_self (by omega)

/-- `setFinal` succeeds exactly where one `stepKey` navigation step
succeeds. -/
theorem setFinal_isSome (cur : PyVal) (k : String) (v : PyVal) :
    (setFinal cur k v).isSome = (stepKey cur k).isSome := by
  cases cur with
  | dict m =>
    unfold setFinal stepKey
    by_cases hb : hasBracket k
    · simp only [if_pos hb]
      rcases (bracketParts k).2 with _ | idx
      · rfl
      · rcases h : lookupKey m (bracketParts k).1 with _ | w
        · rfl
        · cases w with
          | list xs =>
            have := pySetIndex_isSome xs idx v
            rcases h2 : pySetIndex xs idx v with _ | xs2 <;>
              rcases h3 : pyIndex xs idx with _ | y <;>
              simp [h2, h3] at this ⊢
          | str s => rfl
          | int n => rfl
          | bool b => rfl
          | bytes bs => rfl
          | dict m2 => rfl
    · simp only [if_neg hb]
      rcases h : lookupKey m k with _ | w <;> rfl
  | str s => rfl
  | int n => rfl
  | bool b => rfl
  | bytes bs => rfl
  | list xs => rfl

/-- After a successful `setFinal`, one navigation step reads back the
written value. -/
theorem stepKey_setFinal (cur : PyVal) (k : String) (v cur2 : PyVal)
    (h : setFinal cur k v = some cur2) : stepKey cur2 k = some v := by
  cases cur with
  | dict m =>
    simp only [setFinal] at h
    by_cases hb : hasBracket k
    · simp only [if_pos hb] at h
      rcases hidx : (bracketParts k).2 with _ | idx
      · simp only [hidx] at h
        cases h
      · simp only [hidx] at h
        rcases hlk : lookupKey m (bracketParts k).1 with _ | w
        · simp only [hlk] at h
          cases h
        · simp only [hlk] at h
          cases w with
          | list xs =>
            rcases hset : pySetIndex xs idx v with _ | xs2
            · simp only [hset] at h
              cases h
            · simp only [hset, Option.some.injEq] at h
              subst h
              simp only [stepKey]
              rw [if_pos hb, hidx,
                lookupKey_updateLookup _ _ _ _ hlk]
              exact pyIndex_pySetIndex xs idx v xs2 hset
          | str s => simp at h
          | int n => simp at h
          | bool b => simp at h
          | bytes bs => simp at h
          | dict m2 => simp at h
    · simp only [if_neg hb] at h
      rcases hlk : lookupKey m k with _ | w
      · simp only [hlk] at h
        cases h
      · simp only [hlk, Option.some.injEq] at h
        subst h
        simp only [stepKey]
        rw [if_neg hb]
        exact lookupKey_updateLookup _ _ _ _ hlk
  | str s => simp [setFinal] at h
  | int n => simp [setFinal] at h
  | bool b => simp [setFinal] at h
  | bytes bs => simp [setFinal] at h
  | list xs => simp [setFinal] at h

/-- Over a nonempty split path, the write succeeds exactly where the read
succeeds. -/
theorem setSegs_isSome_eq_getSegs (v : PyVal) :
    ∀ (segs : List String) (cur : PyVal), segs ≠ [] →
      (setSegs cur v segs).isSome = (getSegs cur segs).isSome := by
  intro segs
  induction segs with
  | nil => intro cur h; exact absurd rfl h
  | cons k ks ih =>
    intro cur _
    cases ks with
    | nil =>
      show (setFinal cur k v).isSome = (getSegs cur [k]).isSome
      rw [setFinal_isSome]
      rcases h : stepKey cur k with _ | nxt <;> simp [getSegs, h]
    | cons k2 ks2 =>
      show (setSegs cur v (k :: k2 :: ks2)).isSome
        = (getSegs cur (k :: k2 :: ks2)).isSome
      simp only [setSegs, getSegs]
      rcases h : stepKey cur k with _ | nxt
      · simp only [h]
      · simp only [h]
        rcases h2 : setSegs nxt v (k2 :: ks2) with _ | nxt2
        · simp only [h2]
          have h3 := ih nxt (by simp)
          rw [h2] at h3
          exact h3
        · simp only [h2]
          have h3 := ih nxt (by simp)
          rw [h2] at h3
          simp only [getSegs] at h3
          have h4 : (setFinal cur k nxt2).isSome = true := by
            rw [setFinal_isSome, h]
            rfl
          rw [← h3, h4]
          rfl

/-- After a successful nested write, reading the same path yields the
written value. -/
theorem getSegs_after_setSegs (v : PyVal) :
    ∀ (segs : List String) (cur cur2 : PyVal),
      setSegs cur v segs = some cur2 → getSegs cur2 segs = some v := by
  intro segs
  induction segs with
  | nil => intro cur cur2 h; simp [setSegs] at h
  | cons k ks ih =>
    intro cur cur2 h
    cases ks with
    | nil =>
      have h2 : setFinal cur k v = some cur2 := h
      have h3 := stepKey_setFinal cur k v cur2 h2
      simp [getSegs, h3]
    | cons k2 ks2 =>
      simp only [setSegs] at h
      rcases h1 : stepKey cur k with _ | nxt
      · simp only [h1] at h
        cases h
      · simp only [h1] at h
        rcases h2 : setSegs nxt v (k2 :: ks2) with _ | nxt2
        · simp only [h2] at h
          cases h
        · simp only [h2] at h
          have h3 := stepKey_setFinal cur k nxt2 cur2 h
          simp only [getSegs, h3]
          exact ih nxt nxt2 h2

/-- Python `split` never returns an empty list. -/
theorem splitDotAux_ne_nil (l : List Char) :
    ∀ acc : List Char, splitDotAux acc l ≠ [] := by
  induction l with
  | nil => intro acc; simp [splitDotAux]
  | cons c cs ih =>
    intro acc
    simp only [splitDotAux]
    split_ifs
    · simp
    · exact ih (c :: acc)

/-- C9: nested field navigation is total and never raises — `_set_nested_value`
leaves the data unchanged and returns `False` exactly when
`_get_nested_value` returns `None` (missing key, non-list bracket target,
bad or out-of-range index, missing final key), and when it returns `True`
it has written the value at the path, which then reads back. -/
theorem c9_nested_navigation_total (d : PyVal) (path : String)
    (v : PyVal) :
    ((set_nested_value d path v).1 = false →
      (set_nested_value d path v).2 = d) ∧
    ((set_nested_value d path v).1 = true ↔
      (get_nested_value d path).isSome = true) ∧
    (∀ d2, set_nested_value d path v = (true, d2) →
      get_nested_value d2 path = some v) := by
  have hne : pySplitDot path ≠ [] := splitDotAux_ne_nil path.data []
  have hsome := setSegs_isSome_eq_getSegs v (pySplitDot path) d hne
  unfold set_nested_value get_nested_value
  rcases h : setSegs d v (pySplitDot path) with _ | d2
  · rw [h] at hsome
    refine ⟨fun _ => rfl, ?_, ?_⟩
    · simp [← hsome]
    · intro d2 hd2
      simp at hd2
  · rw [h] at hsome
    refine ⟨by simp, ?_, ?_⟩
    · simp [← hsome]
    · intro d3 hd3
      simp only [Prod.mk.injEq] at hd3
      rw [← hd3.2]
      exact getSegs_after_setSegs v (pySplitDot path) d d2 h

/-- Witness for C9 at a concrete structure and path. -/
theorem c9_nested_navigation_total_witness :
    (set_nested_value (.dict [("a", .list [.int 1, .int 2])]) "a[1]"
      (.str "x")).1 = true ∧
    get_nested_value
      ((set_nested_value (.dict [("a", .list [.int 1, .int 2])]) "a[1]"
        (.str "x")).2) "a[1]" = some (.str "x") :=
  ⟨((c9_nested_navigation_total (.dict [("a", .list [.int 1, .int 2])])
      "a[1]" (.str "x")).2.1).mpr (by decide),
   (c9_nested_navigation_total (.dict [("a", .list [.int 1, .int 2])])
      "a[1]" (.str "x")).2.2 _ rfl⟩

/-- Counterexample for C3: a non-numeric translated text for an int-typed
leaf is not skipped — `_convert_to_type` falls back to `0`, the modify
call reports success, and the leaf loses its original value `42`. -/
theorem c3_counterexample :
    modify_monobehaviour_safe (some (.dict [("hp", .int 42)])) "hp" "abc"
        true
      = (true, some (.dict [("hp", .int 0)])) ∧
    get_nested_value (.dict [("hp", .int 42)]) "hp" = some (.int 42) ∧
    pyIntParse "abc" = none :=
  ⟨rfl, rfl, rfl⟩

/-- C3 (amended): when the translated text cannot be coerced to an
int-typed leaf (Python `int()` raises), `_convert_to_type` silently
substitutes the default `0`, the record is not skipped, and
`_modify_monobehaviour_safe` overwrites the leaf with `0` instead of
retaining its original value. -/
theorem c3_uncoercible_int_writes_zero (md : PyVal) (p t : String)
    (n : Int) (hp : p ≠ "") (hmd : pyFalsy md = false)
    (hget : get_nested_value md p = some (.int n))
    (hparse : pyIntParse t = none) :
    ∃ md2,
      modify_monobehaviour_safe (some md) p t true = (true, some md2) ∧
      get_nested_value md2 p = some (.int 0) := by
  have hne : pySplitDot p ≠ [] := splitDotAux_ne_nil p.data []
  have hs := setSegs_isSome_eq_getSegs (PyVal.int 0) (pySplitDot p) md hne
  have hg : (getSegs md (pySplitDot p)).isSome = true := by
    have : getSegs md (pySplitDot p) = some (.int n) := hget
    rw [this]
    rfl
  rw [hg] at hs
  rcases ho : setSegs md (PyVal.int 0) (pySplitDot p) with _ | md2
  · rw [ho] at hs
    simp at hs
  · refine ⟨md2, ?_, ?_⟩
    · simp only [modify_monobehaviour_safe, if_neg hp, hmd,
        Bool.false_eq_true, if_false, hget, typeOf, convert_to_type,
        hparse, set_nested_value, ho]
      rw [if_pos trivial]
    · exact getSegs_after_setSegs (PyVal.int 0) (pySplitDot p) md md2 ho

/-- Witness for C3 at a concrete typetree. -/
theorem c3_uncoercible_int_writes_zero_witness :
    ∃ md2,
      modify_monobehaviour_safe (some (.dict [("im", .int 7)])) "im" "xy"
          true
        = (true, some md2) ∧
      get_nested_value md2 "im" = some (.int 0) :=
  c3_uncoercible_int_writes_zero (.dict [("im", .int 7)]) "im" "xy" 7
    (by decide) rfl rfl rfl

/-- Every traced invocation is at the starting depth or at depth at most
4: recursion only happens under the `depth < 4` guard. -/
theorem searchCallsAux_depth_le (heap : Nat → MonoNode) :
    ∀ (fuel ref depth : Nat) (p : Nat × Nat),
      p ∈ searchCallsAux heap fuel ref depth →
        p.2 ≤ depth ∨ p.2 ≤ 4 := by
  intro fuel
  induction fuel with
  | zero =>
    intro ref depth p hp
    simp only [searchCallsAux, List.mem_singleton] at hp
    subst hp
    left
    exact le_refl depth
  | succ fuel ih =>
    intro ref depth p hp
    simp only [searchCallsAux, List.mem_cons] at hp
    rcases hp with rfl | hp
    · left
      exact le_refl depth
    · by_cases h6 : depth > 6
    
      · simp only [if_pos h6] at hp
        simp at hp
      · simp only [if_neg h6] at hp
        rcases hh : heap ref with s | fields | items
        · simp only [hh] at hp
          simp at hp
        · simp only [hh] at hp
          by_cases h4 : depth < 4
          · simp only [if_pos h4] at hp
            rcases List.mem_flatMap.mp hp with ⟨kv, _, hmem⟩
            rcases hkv : heap kv.2 with s2 | f2 | i2
            · simp only [hkv] at hmem
              simp at hmem
            · simp only [hkv] at hmem
              rcases ih kv.2 (depth + 1) p hmem with h | h
              · right; omega
              · right; exact h
            · simp only [hkv] at hmem
              rcases ih kv.2 (depth + 1) p hmem with h | h
              · right; omega
              · right; exact h
            · simp only [hkv] at hmem
              simp at hmem
          · simp only [if_neg h4] at hp
            simp at hp
        · simp only [hh] at hp
          by_cases h4 : depth < 4
          · simp only [if_pos h4] at hp
            rcases List.mem_flatMap.mp hp with ⟨c, _, hmem⟩
            rcases hc : heap c with s2 | f2 | i2
            · simp only [hc] at hmem
              rcases ih c (depth + 1) p hmem with h | h
              · right; omega
              · right; exact h
            · simp only [hc] at hmem
              rcases ih c (depth + 1) p hmem with h | h
              · right; omega
              · right; exact h
            · simp only [hc] at hmem
              simp at hmem
            · simp only [hc] at hmem
              simp at hmem
          · simp only [if_neg h4] at hp
            simp at hp
        · simp only [hh] at hp
          simp at hp

/-- C6: the recursive MonoBehaviour field search is depth-bounded on every
heap, including cyclic and self-referential ones — no traced invocation
exceeds the configured depth limit of 6 (in fact recursion stops at depth
4) — and a sequence node recurses into at most its first 100 elements. -/
theorem c6_search_depth_bounded (heap : Nat → MonoNode) (ref : Nat) :
    (∀ p ∈ searchCalls heap ref 0, p.2 ≤ 6) ∧
    (∀ r d items, heap r = MonoNode.list items → d < 4 →
      searchCalls heap r d = (r, d) ::
        (items.take 100).flatMap (fun c =>
          match heap c with
          | MonoNode.dict _ => searchCalls heap c (d + 1)
          | MonoNode.str _ => searchCalls heap c (d + 1)
          | _ => [])) := by
  constructor
  · intro p hp
    rcases searchCallsAux_depth_le heap (5 - 0) ref 0 p hp with h | h <;>
      omega
  · intro r d items hh hd
    unfold searchCalls
    have h5 : 5 - d = (4 - d) + 1 := by omega
    rw [h5]
    simp only [searchCallsAux, hh]
    rw [if_neg (by omega : ¬d > 6), if_pos hd]
    have hf : 5 - (d + 1) = 4 - d := by omega
    simp only [searchCalls, hf]

/-- Witness for C6: a self-referential mapping — the search terminates,
its deepest traced call is at depth 4, and the bound holds. -/
theorem c6_search_depth_bounded_witness :
    (0, 4) ∈ searchCalls (fun _ => MonoNode.dict [("self", 0)]) 0 0 ∧
    (4 : Nat) ≤ 6 :=
  ⟨by decide,
   (c6_search_depth_bounded (fun _ => MonoNode.dict [("self", 0)]) 0).1
     (0, 4) (by decide)⟩
